import Mathlib

/-!
Verification development for the `calc` command-line expression evaluator
(`src/calc.py`).

Numbers are modelled by exact rationals (`ℚ`).  Every numeric value occurring
in the statements below (small integers, halves) is exactly representable as a
binary64 float and the operations on them are exact, so the rational model
agrees with the Python float semantics on everything proved here.  The one
place where exact arithmetic cannot represent the Python result is `a ** b`
for a non-integral exponent `b` (CPython returns an irrational float, or a
complex number for a negative base): the model marks that case with the
distinguished outcome `PyErr.powUnrepresentable` and no theorem below depends
on it.

Exceptions are modelled by `Except PyErr`: a Python `raise` becomes
`.error e`, a normal return becomes `.ok v`.
-/

/-- Exceptional outcomes of the Python code.  `parseException` is pyparsing's
`ParseException`; `valueError` is raised by the `float()` parse action;
`zeroDivision` is `ZeroDivisionError`; `typeError`, `indexError`,
`attributeError` and `recursionError` are the corresponding built-in Python
exceptions.  `powUnrepresentable` is not a Python exception but a marker of
the model boundary: CPython would return an irrational float (or a complex
number) for `a ** b` with non-integral `b`, which exact rationals cannot
represent. -/
inductive PyErr where
  | parseException
  | valueError
  | zeroDivision
  | typeError
  | indexError
  | attributeError
  | recursionError
  | powUnrepresentable
deriving DecidableEq, Repr

/-- A token of the flat sequence produced by `calcLang().parseString`: the
`float`s produced by the number parse action, and the one-character operator
strings produced by `oneOf('+ - / * ^')`. -/
inductive Token where
  | num : ℚ → Token
  | op : Char → Token
deriving DecidableEq, Repr

/-- Line 56: `op_order = ['^', '*', '/', '+', '-']`. -/
def op_order : List Char := ['^', '*', '/', '+', '-']

/-- Python equality test `n == self.op_order[op_index]` between a stack entry
and a one-character operator string: a float never equals a string, two
one-character strings are equal iff the characters are. -/
def tokenMatches (t : Token) (c : Char) : Bool :=
  match t with
  | .num _ => false
  | .op c2 => c2 = c

/-- Characters accepted by `oneOf('+ - / * ^')` (line 42). -/
def isOpChar (c : Char) : Bool :=
  c = '+' || c = '-' || c = '/' || c = '*' || c = '^'

/-- pyparsing's default skippable whitespace (`ParserElement.DEFAULT_WHITE_CHARS`). -/
def isWs (c : Char) : Bool :=
  c = ' ' || c = '\n' || c = '\t' || c = '\r'

/-- Skip insignificant whitespace before a token. -/
def skipWs (cs : List Char) : List Char := cs.dropWhile isWs

/-- Numeric value of a decimal digit character. -/
def digitVal (c : Char) : ℕ := c.toNat - ('0').toNat

/-- Value of a digit string read in base 10. -/
def digitsVal (ds : List Char) : ℕ := ds.foldl (fun a c => 10 * a + digitVal c) 0

/-- Lexes the `number` word of `calcLang` (lines 33-41) at the head of the
input: `Word('+-' + nums, nums)` — one character from `+-0123456789` then
greedily decimal digits — then, adjacent because of `Combine`,
`Optional(point + Optional(Word(nums)))`.  Returns
`(isNegative, integer digits, fractional digits, remaining input)`, or `none`
when the first character is not in the `Word`'s initial set (pyparsing raises
`ParseException` there). -/
def lexNumber (cs : List Char) : Option (Bool × List Char × List Char × List Char) :=
  match cs with
  | [] => none
  | c :: rest =>
    if c.isDigit || c = '+' || c = '-' then
      let intDs := (if c.isDigit then [c] else []) ++ rest.takeWhile Char.isDigit
      let r1 := rest.dropWhile Char.isDigit
      match r1 with
      | '.' :: r2 => some (c = '-', intDs, r2.takeWhile Char.isDigit, r2.dropWhile Char.isDigit)
      | _ => some (c = '-', intDs, [], r1)
    else none

/-- Value of a lexed number literal: sign times `intpart.fracpart`. -/
def numberValue (neg : Bool) (intDs fracDs : List Char) : ℚ :=
  let mag : ℚ := (digitsVal intDs : ℚ) + (digitsVal fracDs : ℚ) / ((10 : ℚ) ^ fracDs.length)
  if neg then -mag else mag

/-- Parses one `number` (whitespace skipped by the enclosing expression
context, as pyparsing does): lexes the word, then applies the
`float(n[0])` parse action, which raises `ValueError` when the lexeme
contains no digit at all (a bare sign such as `+`, or a sign followed only
by a point). -/
def parseNumber (cs : List Char) : Except PyErr (ℚ × List Char) :=
  match lexNumber (skipWs cs) with
  | none => .error .parseException
  | some (neg, intDs, fracDs, rest) =>
    if intDs = [] && fracDs = [] then .error .valueError
    else .ok (numberValue neg intDs fracDs, rest)

/-- Fuel-indexed loop for `ZeroOrMore(operation + expression)` (line 45):
try to read an operator and then a number; a `ParseException` inside the
iteration stops the loop keeping what was already matched (pyparsing's
`ZeroOrMore` catches it), while a `ValueError` raised by the `float` parse
action propagates.  Each iteration consumes at least two characters, so the
fuel `cs.length + 1` supplied by the wrapper is never exhausted; the fuel-0
branch returns the accumulator so that statements about successful results
hold for every fuel. -/
def parseTailF : ℕ → List Char → List Token → Except PyErr (List Token)
  | 0, _, acc => .ok acc
  | fuel + 1, cs, acc =>
    match skipWs cs with
    | [] => .ok acc
    | c :: rest =>
      if isOpChar c then
        match parseNumber rest with
        | .error .parseException => .ok acc
        | .error e => .error e
        | .ok (q, rest2) => parseTailF fuel rest2 (acc ++ [Token.op c, Token.num q])
      else .ok acc

/-- The `Operator Number` repetition after the leading number. -/
def parseTail (cs : List Char) (acc : List Token) : Except PyErr (List Token) :=
  parseTailF (cs.length + 1) cs acc

/-- Models `calcLang().parseString(s)` (lines 26-47 and the call sites at
lines 119 and 138): parse a leading `number`, then as many
`operation number` pairs as match.  `parseString` is called without
`parseAll`, so unmatchable trailing input is ignored, not rejected. -/
def calcLang (s : String) : Except PyErr (List Token) :=
  match parseNumber s.toList with
  | .error e => .error e
  | .ok (q, rest) => parseTail rest [Token.num q]

/-- Python scan `for i, n in enumerate(stack): if n == op: hitIndex = i; break`
as the index of the first matching element, if any. -/
def scanHit (stack : List Token) (c : Char) : Option ℕ :=
  match stack with
  | [] => none
  | t :: rest => if tokenMatches t c then some 0 else (scanHit rest c).map (· + 1)

/-- Lines 72-77: `hitIndex` after the scan loop — the index of the first
element equal to the operator, or the initial value `0` when the loop never
breaks. -/
def findHit (stack : List Token) (c : Char) : ℕ := (scanHit stack c).getD 0

/-- Python float division `a / b` (line 100): raises `ZeroDivisionError`
when the divisor is zero, otherwise divides. -/
def pyDiv (a b : ℚ) : Except PyErr ℚ :=
  if b = 0 then .error .zeroDivision else .ok (a / b)

/-- Python float power `a ** b` (line 96): for an integral exponent it is
exact integer-power (raising `ZeroDivisionError` for `0.0` to a negative
power); a non-integral exponent produces an irrational or complex value that
the exact model marks with `powUnrepresentable`. -/
def pyPow (a b : ℚ) : Except PyErr ℚ :=
  if b.den = 1 then
    if a = 0 ∧ b.num < 0 then .error .zeroDivision else .ok (a ^ b.num)
  else .error .powUnrepresentable

/-- One arithmetic branch of `evaluate_expr`: `stack[0] <op> stack[2]`,
wrapped as the one-element list the Python code returns.  Indexing an absent
element raises `IndexError`; applying a float operation to a string operand
raises `TypeError`. -/
def binOp (f : ℚ → ℚ → Except PyErr ℚ) (stack : List Token) :
    Except PyErr (Option (List Token)) :=
  match stack.get? 0 with
  | none => .error .indexError
  | some t0 =>
    match stack.get? 2 with
    | none => .error .indexError
    | some t2 =>
      match t0, t2 with
      | .num a, .num b =>
        match f a b with
        | .error e => .error e
        | .ok q => .ok (some [Token.num q])
      | _, _ => .error .typeError

/-- Lines 89-104, `Calc.evaluate_expr`: dispatch on `stack[1]`; each branch
returns the singleton list `[stack[0] <op> stack[2]]`; if no branch matches,
the function falls through and returns `None`. -/
def evaluate_expr (stack : List Token) : Except PyErr (Option (List Token)) :=
  match stack.get? 1 with
  | none => .error .indexError
  | some t1 =>
    if tokenMatches t1 '^' then binOp pyPow stack
    else if tokenMatches t1 '*' then binOp (fun a b => .ok (a * b)) stack
    else if tokenMatches t1 '/' then binOp pyDiv stack
    else if tokenMatches t1 '+' then binOp (fun a b => .ok (a + b)) stack
    else if tokenMatches t1 '-' then binOp (fun a b => .ok (a - b)) stack
    else .ok none

/-- Fuel-indexed model of `Calc.evaluate` (lines 58-87).  One unit of fuel is
one Python call frame.  Branches, in the order the Python code takes them:
return `stack[0]` when the length is 1; on an empty stack the scan loop never
runs, so the recursion `op_index + 1` repeats forever and exhausts the
interpreter stack (`recursionError` when the fuel runs out); on a non-empty
stack the first loop iteration evaluates `self.op_order[op_index]`, raising
`IndexError` once `op_index` is past the list; otherwise scan for the
operator, advance to the next `op_index` when `hitIndex` stayed `0`, and
otherwise splice `evaluate_expr(stack[i-1:i+2])` over `stack[i-1:i+2]` and
recurse at the same `op_index` (assigning the `None` fall-through to a slice
would raise `TypeError`). -/
def evaluateF : ℕ → List Token → ℕ → Except PyErr Token
  | 0, _, _ => .error .recursionError
  | fuel + 1, stack, opIndex =>
    if h1 : stack.length = 1 then .ok (stack.get ⟨0, by omega⟩)
    else if stack.length = 0 then evaluateF fuel stack (opIndex + 1)
    else if h5 : op_order.length ≤ opIndex then .error .indexError
    else if findHit stack (op_order.get ⟨opIndex, by omega⟩) = 0 then
      evaluateF fuel stack (opIndex + 1)
    else
      match evaluate_expr ((stack.drop
          (findHit stack (op_order.get ⟨opIndex, by omega⟩) - 1)).take 3) with
      | .error e => .error e
      | .ok none => .error .typeError
      | .ok (some r) =>
        evaluateF fuel
          (stack.take (findHit stack (op_order.get ⟨opIndex, by omega⟩) - 1) ++ r ++
            stack.drop (findHit stack (op_order.get ⟨opIndex, by omega⟩) + 2))
          opIndex

/-- `Calc.evaluate(stack, op_index)`.  The fuel `stack.length * 7 + 7`
strictly exceeds the number of nested calls the Python recursion can make
(each reduction removes at least one element and at most six `op_index`
advances separate reductions), so it is exhausted only by the genuinely
unbounded empty-stack recursion. -/
def evaluate (stack : List Token) (opIndex : ℕ) : Except PyErr Token :=
  evaluateF (stack.length * 7 + 7) stack opIndex

/-- The computation performed for one input expression by the driver
(lines 119-120 and 138-139): parse the string, then `c.evaluate` the
resulting sequence from `op_index = 0`. -/
def evalString (s : String) : Except PyErr Token :=
  match calcLang s with
  | .error e => .error e
  | .ok ts => evaluate ts 0

/-- Models `c.evaluate(result).rstrip('0').rstrip('.')` (line 120):
`evaluate` returns the element at index 0, which for grammar output is a
Python float, and a float object has no `rstrip` attribute, so the attribute
lookup raises `AttributeError`; on a (grammar-unreachable) one-character
operator string, `rstrip` trims trailing `'0'`s and then trailing `'.'`s. -/
def rstripResult (t : Token) : Except PyErr String :=
  match t with
  | .num _ => .error .attributeError
  | .op c =>
    .ok (((String.mk [c]).dropRightWhile (fun ch => ch = '0')).dropRightWhile
      (fun ch => ch = '.'))

/-- One iteration of `loop` (lines 117-122): parse the line and print either
the formatted result or, when pyparsing raised `ParseException`, the fixed
message.  Every other exception — `ValueError` from the parse action,
`ZeroDivisionError` from evaluation, `AttributeError` from the formatting —
is not caught and escapes. -/
def loopLine (s : String) : Except PyErr String :=
  match calcLang s with
  | .error .parseException => .ok "Unable to parse input."
  | .error e => .error e
  | .ok ts =>
    match evaluate ts 0 with
    | .error e => .error e
    | .ok t => rstripResult t

/-- The spec's TokenSequence invariant: the sequence strictly alternates
Number, Operator, …, Number, starts and ends with a Number, and every
operator is one of the five of `op_order`. -/
inductive Valid : List Token → Prop
  | single (q : ℚ) : Valid [Token.num q]
  | cons (q : ℚ) (c : Char) (rest : List Token) (hc : c ∈ op_order)
      (hrest : Valid rest) : Valid (Token.num q :: Token.op c :: rest)

/-- Arithmetic failure of a single binary operation: `ZeroDivisionError`, or
the model marker for an irrational/complex power. -/
def ArithErr (e : PyErr) : Prop :=
  e = PyErr.zeroDivision ∨ e = PyErr.powUnrepresentable

deriving instance DecidableEq for Except

/-- Modelled from the spec (sections 3 and 4.2): the precedence tiers,
highest first — `^` alone, then `*` and `/` together, then `+` and `-`
together. -/
def specTiers : List (List Char) := [['^'], ['*', '/'], ['+', '-']]

/-- Modelled from the spec (section 4.2 step 2): scan the sequence
left-to-right for the first operator token matching the current tier,
either operator of the tier matching the same scan. -/
def scanTier (stack : List Token) (tier : List Char) : Option ℕ :=
  match stack with
  | [] => none
  | t :: rest =>
    if tier.any (fun c => tokenMatches t c) then some 0
    else (scanTier rest tier).map (· + 1)

/-- Modelled from the spec (section 4.2): reduce at the leftmost operator of
the current tier, restarting at the same tier, and fall to the next tier when
the tier has no occurrence; return once a single element remains.  The window
reduction reuses the binary-operation contract, which coincides with
`evaluate_expr` on the windows exercised here.  Fuel as in `evaluateF`. -/
def specReduceF : ℕ → List Token → ℕ → Except PyErr Token
  | 0, _, _ => .error .recursionError
  | fuel + 1, stack, tierIdx =>
    if h1 : stack.length = 1 then .ok (stack.get ⟨0, by omega⟩)
    else
      match specTiers.get? tierIdx with
      | none => .error .indexError
      | some tier =>
        match scanTier stack tier with
        | none => specReduceF fuel stack (tierIdx + 1)
        | some i =>
          match evaluate_expr ((stack.drop (i - 1)).take 3) with
          | .error e => .error e
          | .ok none => .error .typeError
          | .ok (some r) =>
            specReduceF fuel (stack.take (i - 1) ++ r ++ stack.drop (i + 2)) tierIdx

/-- Modelled from the spec (section 4.2): the tier-scan reduction of a whole
sequence, starting at the highest tier. -/
def specReduce (stack : List Token) : Except PyErr Token :=
  specReduceF (stack.length * 7 + 7) stack 0

/-- No operator of an `op_order` index below `k` occurs in the sequence:
the scan has already exhausted every earlier `op_index`. -/
def NoEarlier (ts : List Token) (k : ℕ) : Prop :=
  ∀ j (hj : j < op_order.length), j < k →
    ∀ t ∈ ts, tokenMatches t (op_order.get ⟨j, hj⟩) = false


theorem valid_ne_nil {ts : List Token} (h : Valid ts) : ts ≠ [] := by
  cases h <;> simp

theorem valid_head {ts : List Token} (h : Valid ts) :
    ∃ q tl, ts = Token.num q :: tl := by
  cases h with
  | single q => exact ⟨q, [], rfl⟩
  | cons q c rest hc hrest => exact ⟨q, _, rfl⟩

theorem valid_replace_head {b : ℚ} {tl : List Token}
    (h : Valid (Token.num b :: tl)) (q : ℚ) : Valid (Token.num q :: tl) := by
  cases h with
  | single _ => exact Valid.single q
  | cons _ c rest hc hrest => exact Valid.cons q c rest hc hrest

theorem valid_append_pair {ts : List Token} (h : Valid ts) (c : Char)
    (hc : c ∈ op_order) (q : ℚ) : Valid (ts ++ [Token.op c, Token.num q]) := by
  induction h with
  | single p => exact Valid.cons p c [Token.num q] hc (Valid.single q)
  | cons p c2 rest hc2 hrest ih => exact Valid.cons p c2 _ hc2 ih

theorem valid_decomp {ts : List Token} (h : Valid ts) (hne : ts.length ≠ 1) :
    ∃ q c rest, ts = Token.num q :: Token.op c :: rest ∧ c ∈ op_order ∧ Valid rest := by
  cases h with
  | single q => simp at hne
  | cons q c rest hc hrest => exact ⟨q, c, rest, rfl, hc, hrest⟩

theorem scanHit_eq_none_iff {l : List Token} {c : Char} :
    scanHit l c = none ↔ ∀ t ∈ l, tokenMatches t c = false := by
  induction l with
  | nil => simp [scanHit]
  | cons t rest ih =>
    by_cases hm : tokenMatches t c
    · simp [scanHit, hm]
    · simp [scanHit, hm, ih]

theorem scanHit_lt {l : List Token} {c : Char} {i : ℕ}
    (h : scanHit l c = some i) : i < l.length := by
  induction l generalizing i with
  | nil => simp [scanHit] at h
  | cons t rest ih =>
    by_cases hm : tokenMatches t c
    · simp [scanHit, hm] at h
      simp [← h]
    · simp [scanHit, hm] at h
      obtain ⟨j, hj, rfl⟩ := h
      have := ih hj
      simp
      omega

theorem scanHit_valid_ne_zero {ts : List Token} {c : Char} (h : Valid ts) :
    scanHit ts c ≠ some 0 := by
  obtain ⟨q, tl, rfl⟩ := valid_head h
  intro hcontra
  simp [scanHit, tokenMatches] at hcontra

theorem findHit_scanHit {stack : List Token} {c : Char}
    (h : findHit stack c ≠ 0) : scanHit stack c = some (findHit stack c) := by
  unfold findHit at h ⊢
  cases hs : scanHit stack c with
  | none => rw [hs] at h; simp at h
  | some i => simp

theorem valid_hit_decomp {ts : List Token} {c : Char} {i : ℕ} (h : Valid ts)
    (hs : scanHit ts c = some i) (hi : i ≠ 0) :
    (∃ a b, (ts.drop (i - 1)).take 3 = [Token.num a, Token.op c, Token.num b]) ∧
    ∀ q : ℚ, Valid (ts.take (i - 1) ++ [Token.num q] ++ ts.drop (i + 2)) ∧
      (ts.take (i - 1) ++ [Token.num q] ++ ts.drop (i + 2)).length = ts.length - 2 := by
  induction h generalizing i with
  | single q => simp [scanHit, tokenMatches] at hs
  | cons q c2 rest hc2 hrest ih =>
    by_cases hcc : c2 = c
    · subst hcc
      have hi1 : i = 1 := by
        simp [scanHit, tokenMatches] at hs
        omega
      subst hi1
      obtain ⟨b, tl, rfl⟩ := valid_head hrest
      refine ⟨⟨q, b, by simp⟩, fun Q => ⟨?_, by simp⟩⟩
      simpa using valid_replace_head hrest Q
    · have hs2 : ∃ j, scanHit rest c = some j ∧ j + 2 = i := by
        simpa [scanHit, tokenMatches, hcc] using hs
      obtain ⟨j, hj, rfl⟩ := hs2
      have hj0 : j ≠ 0 := by
        intro h0
        exact scanHit_valid_ne_zero hrest (h0 ▸ hj)
      obtain ⟨k, rfl⟩ : ∃ k, j = k + 1 := ⟨j - 1, by omega⟩
      obtain ⟨⟨a, b, hwin⟩, hsplice⟩ := ih hj hj0
      have hlen : rest.length ≥ 2 := by
        have := scanHit_lt hj
        omega
      constructor
      · refine ⟨a, b, ?_⟩
        have hdrop : (Token.num q :: Token.op c2 :: rest).drop (k + 1 + 2 - 1) =
            rest.drop (k + 1 - 1) := by simp
        rw [hdrop, hwin]
      · intro Q
        obtain ⟨hv, hl⟩ := hsplice Q
        have htake : (Token.num q :: Token.op c2 :: rest).take (k + 1 + 2 - 1) =
            Token.num q :: Token.op c2 :: rest.take (k + 1 - 1) := by simp
        have hdrop2 : (Token.num q :: Token.op c2 :: rest).drop (k + 1 + 2 + 2) =
            rest.drop (k + 1 + 2) := by simp
        rw [htake, hdrop2]
        constructor
        · exact Valid.cons q c2 _ hc2 hv
        · simp only [List.cons_append, List.length_cons]
          simp at hl ⊢
          omega

theorem evaluate_expr_pow (a b : ℚ) (w : List Token) :
    evaluate_expr (Token.num a :: Token.op '^' :: Token.num b :: w) =
      match pyPow a b with
      | .error e => .error e
      | .ok q => .ok (some [Token.num q]) := rfl

theorem evaluate_expr_mul (a b : ℚ) (w : List Token) :
    evaluate_expr (Token.num a :: Token.op '*' :: Token.num b :: w) =
      .ok (some [Token.num (a * b)]) := rfl

theorem evaluate_expr_div (a b : ℚ) (w : List Token) :
    evaluate_expr (Token.num a :: Token.op '/' :: Token.num b :: w) =
      match pyDiv a b with
      | .error e => .error e
      | .ok q => .ok (some [Token.num q]) := rfl

theorem evaluate_expr_add (a b : ℚ) (w : List Token) :
    evaluate_expr (Token.num a :: Token.op '+' :: Token.num b :: w) =
      .ok (some [Token.num (a + b)]) := rfl

theorem evaluate_expr_sub (a b : ℚ) (w : List Token) :
    evaluate_expr (Token.num a :: Token.op '-' :: Token.num b :: w) =
      .ok (some [Token.num (a - b)]) := rfl

theorem pyPow_cases (a b : ℚ) :
    (∃ q, pyPow a b = .ok q) ∨ (∃ e, ArithErr e ∧ pyPow a b = .error e) := by
  unfold pyPow
  by_cases h1 : b.den = 1
  · by_cases h2 : a = 0 ∧ b.num < 0
    · exact Or.inr ⟨PyErr.zeroDivision, Or.inl rfl, by rw [if_pos h1, if_pos h2]⟩
    · exact Or.inl ⟨a ^ b.num, by rw [if_pos h1, if_neg h2]⟩
  · exact Or.inr ⟨PyErr.powUnrepresentable, Or.inr rfl, by rw [if_neg h1]⟩

theorem pyDiv_cases (a b : ℚ) :
    (∃ q, pyDiv a b = .ok q) ∨ (∃ e, ArithErr e ∧ pyDiv a b = .error e) := by
  unfold pyDiv
  by_cases h1 : b = 0
  · exact Or.inr ⟨PyErr.zeroDivision, Or.inl rfl, by rw [if_pos h1]⟩
  · exact Or.inl ⟨a / b, by rw [if_neg h1]⟩

theorem evaluate_expr_window {c : Char} (hc : c ∈ op_order) (a b : ℚ) (w : List Token) :
    (∃ q, evaluate_expr (Token.num a :: Token.op c :: Token.num b :: w) =
        .ok (some [Token.num q])) ∨
    (∃ e, ArithErr e ∧ evaluate_expr (Token.num a :: Token.op c :: Token.num b :: w) =
        .error e) := by
  simp only [op_order, List.mem_cons, List.not_mem_nil, or_false] at hc
  rcases hc with rfl | rfl | rfl | rfl | rfl
  · rcases pyPow_cases a b with ⟨q, hq⟩ | ⟨e, he, herr⟩
    · exact Or.inl ⟨q, by rw [evaluate_expr_pow, hq]⟩
    · exact Or.inr ⟨e, he, by rw [evaluate_expr_pow, herr]⟩
  · exact Or.inl ⟨a * b, evaluate_expr_mul a b w⟩
  · rcases pyDiv_cases a b with ⟨q, hq⟩ | ⟨e, he, herr⟩
    · exact Or.inl ⟨q, by rw [evaluate_expr_div, hq]⟩
    · exact Or.inr ⟨e, he, by rw [evaluate_expr_div, herr]⟩
  · exact Or.inl ⟨a + b, evaluate_expr_add a b w⟩
  · exact Or.inl ⟨a - b, evaluate_expr_sub a b w⟩

theorem noEarlier_zero (ts : List Token) : NoEarlier ts 0 := by
  intro j hj hjk
  omega

theorem noEarlier_splice {ts : List Token} {k i : ℕ} {q : ℚ} (h : NoEarlier ts k) :
    NoEarlier (ts.take (i - 1) ++ [Token.num q] ++ ts.drop (i + 2)) k := by
  intro j hj hjk t ht
  rcases List.mem_append.mp ht with ht1 | ht2
  · rcases List.mem_append.mp ht1 with ht3 | ht4
    · exact h j hj hjk t (List.take_subset _ _ ht3)
    · simp at ht4
      subst ht4
      rfl
  · exact h j hj hjk t (List.drop_subset _ _ ht2)

theorem evaluateF_valid (fuel : ℕ) : ∀ (ts : List Token) (k : ℕ), Valid ts →
    k ≤ op_order.length → NoEarlier ts k → ts.length * 7 + (6 - k) < fuel →
    (∃ q, evaluateF fuel ts k = .ok (Token.num q)) ∨
    (∃ e, ArithErr e ∧ evaluateF fuel ts k = .error e) := by
  induction fuel with
  | zero =>
    intro ts k _ _ _ hf
    omega
  | succ fuel ih =>
    intro ts k hv hk5 hne hf
    by_cases h1 : ts.length = 1
    · obtain ⟨q, tl, rfl⟩ := valid_head hv
      left
      refine ⟨q, ?_⟩
      rw [evaluateF, dif_pos h1]
      rfl

    · have h0 : ¬ ts.length = 0 := by
        have := valid_ne_nil hv
        simpa [List.length_eq_zero] using this
      by_cases h5 : op_order.length ≤ k
      · exfalso
        obtain ⟨q, c, rest, rfl, hc, hrest⟩ := valid_decomp hv h1
        obtain ⟨⟨j, hj⟩, hg⟩ := List.mem_iff_get.mp hc
        have hmatch := hne j hj (by omega) (Token.op c) (by simp)
        rw [hg] at hmatch
        simp [tokenMatches] at hmatch
      · by_cases hHit : findHit ts (op_order.get ⟨k, by omega⟩) = 0
        · have hnone : scanHit ts (op_order.get ⟨k, by omega⟩) = none := by
            cases hs : scanHit ts (op_order.get ⟨k, by omega⟩) with
            | none => rfl
            | some i =>
              have hi0 : i = 0 := by
                have hfi : findHit ts (op_order.get ⟨k, by omega⟩) = i := by
                  unfold findHit
                  rw [hs]
                  rfl
                omega
              exact absurd (hi0 ▸ hs) (scanHit_valid_ne_zero hv)
          have hne' : NoEarlier ts (k + 1) := by
            intro j hj hjk t ht
            by_cases hjlt : j < k
            · exact hne j hj hjlt t ht
            · have hjeq : j = k := by omega
              subst hjeq
              exact scanHit_eq_none_iff.mp hnone t ht
          have hklt : k < 5 := by
            simp [op_order] at h5
            omega
          have step : evaluateF (fuel + 1) ts k = evaluateF fuel ts (k + 1) := by
            rw [evaluateF, dif_neg h1, if_neg h0, dif_neg h5, if_pos hHit]
          rw [step]
          exact ih ts (k + 1) hv (by omega) hne' (by omega)
        · have hscan := findHit_scanHit hHit
          obtain ⟨⟨a, b, hwin⟩, hsplice⟩ := valid_hit_decomp hv hscan hHit
          have hklt : k < 5 := by
            simp [op_order] at h5
            omega
          have hcmem : op_order.get ⟨k, by omega⟩ ∈ op_order := List.get_mem _ _ _
          rcases evaluate_expr_window hcmem a b [] with ⟨q, hq⟩ | ⟨e, he, herr⟩
          · have hq' : evaluate_expr
                ((ts.drop (findHit ts (op_order.get ⟨k, by omega⟩) - 1)).take 3) =
                .ok (some [Token.num q]) := by
              rw [hwin]
              exact hq
            obtain ⟨hvs, hls⟩ := hsplice q
            have step : evaluateF (fuel + 1) ts k =
                evaluateF fuel
                  (ts.take (findHit ts (op_order.get ⟨k, by omega⟩) - 1) ++ [Token.num q] ++
                    ts.drop (findHit ts (op_order.get ⟨k, by omega⟩) + 2)) k := by
              rw [evaluateF, dif_neg h1, if_neg h0, dif_neg h5, if_neg hHit, hq']
            rw [step]
            refine ih _ k hvs (by omega) (noEarlier_splice hne) ?_
            rw [hls]
            omega
          · have herr' : evaluate_expr
                ((ts.drop (findHit ts (op_order.get ⟨k, by omega⟩) - 1)).take 3) =
                .error e := by
              rw [hwin]
              exact herr
            right
            refine ⟨e, he, ?_⟩
            rw [evaluateF, dif_neg h1, if_neg h0, dif_neg h5, if_neg hHit, herr']

theorem isOpChar_mem_op_order {c : Char} (h : isOpChar c = true) : c ∈ op_order := by
  simp only [isOpChar, Bool.or_eq_true, decide_eq_true_eq] at h
  rcases h with ((((rfl | rfl) | rfl) | rfl) | rfl) <;> simp [op_order]

theorem parseTailF_valid (fuel : ℕ) : ∀ (cs : List Char) (acc : List Token), Valid acc →
    ∀ ts, parseTailF fuel cs acc = .ok ts → Valid ts := by
  induction fuel with
  | zero =>
    intro cs acc hacc ts h
    rw [parseTailF] at h
    injection h with h
    exact h ▸ hacc
  | succ fuel ih =>
    intro cs acc hacc ts h
    rw [parseTailF] at h
    split at h
    · injection h with h
      exact h ▸ hacc
    · rename_i c rest hsk
      split at h
      · rename_i hop
        split at h
        · injection h with h
          exact h ▸ hacc
        · simp at h
        · rename_i q rest2 heq
          exact ih rest2 _ (valid_append_pair hacc c (isOpChar_mem_op_order hop) q) ts h
      · injection h with h
        exact h ▸ hacc

theorem calcLang_valid {s : String} {ts : List Token} (h : calcLang s = .ok ts) :
    Valid ts := by
  unfold calcLang at h
  rcases hp : parseNumber s.toList with e | ⟨q, rest⟩
  · rw [hp] at h
    exact absurd h (by simp)
  · rw [hp] at h
    exact parseTailF_valid _ _ _ (Valid.single q) ts h

theorem evaluateF_advance (fuel : ℕ) (stack : List Token) (k : ℕ)
    (hk : k < op_order.length) (h1 : stack.length ≠ 1) (h0 : stack.length ≠ 0)
    (hs : findHit stack (op_order.get ⟨k, hk⟩) = 0) :
    evaluateF (fuel + 1) stack k = evaluateF fuel stack (k + 1) := by
  rw [evaluateF, dif_neg h1, if_neg h0, dif_neg (by omega : ¬ op_order.length ≤ k),
    if_pos hs]

theorem evaluateF_reduce (fuel : ℕ) (stack : List Token) (k : ℕ)
    (hk : k < op_order.length) (h1 : stack.length ≠ 1) (h0 : stack.length ≠ 0)
    (hs : findHit stack (op_order.get ⟨k, hk⟩) ≠ 0) (q : ℚ)
    (hq : evaluate_expr ((stack.drop (findHit stack (op_order.get ⟨k, hk⟩) - 1)).take 3) =
      .ok (some [Token.num q])) :
    evaluateF (fuel + 1) stack k =
      evaluateF fuel
        (stack.take (findHit stack (op_order.get ⟨k, hk⟩) - 1) ++ [Token.num q] ++
          stack.drop (findHit stack (op_order.get ⟨k, hk⟩) + 2)) k := by
  rw [evaluateF, dif_neg h1, if_neg h0, dif_neg (by omega : ¬ op_order.length ≤ k),
    if_neg hs, hq]

theorem evaluateF_reduce_error (fuel : ℕ) (stack : List Token) (k : ℕ)
    (hk : k < op_order.length) (h1 : stack.length ≠ 1) (h0 : stack.length ≠ 0)
    (hs : findHit stack (op_order.get ⟨k, hk⟩) ≠ 0) (e : PyErr)
    (herr : evaluate_expr ((stack.drop (findHit stack (op_order.get ⟨k, hk⟩) - 1)).take 3) =
      .error e) :
    evaluateF (fuel + 1) stack k = .error e := by
  rw [evaluateF, dif_neg h1, if_neg h0, dif_neg (by omega : ¬ op_order.length ≤ k),
    if_neg hs, herr]

theorem evaluateF_single (fuel : ℕ) (t : Token) (k : ℕ) :
    evaluateF (fuel + 1) [t] k = .ok t := by
  rw [evaluateF, dif_pos (show [t].length = 1 from rfl)]
  rfl

section ConcreteEvaluations

attribute [local semireducible] Rat.add Rat.mul Rat.sub Rat.inv

/-- C1 counterexample: on the input `"1 / 0"` the claim fails — parsing
succeeds, but evaluation raises `ZeroDivisionError` (Python float division by
zero is an exception, not an infinity), and the error escapes the driver loop
uncaught instead of being returned as a value. -/
theorem C1_counterexample :
    calcLang "1 / 0" = .ok [Token.num 1, Token.op '/', Token.num 0] ∧
    evaluate [Token.num 1, Token.op '/', Token.num 0] 0 = .error PyErr.zeroDivision ∧
    loopLine "1 / 0" = .error PyErr.zeroDivision := by
  refine ⟨by decide, by decide, by decide⟩

/-- C1 (amended): for every division window `[a, /, 0]` the evaluation of the
sequence raises `ZeroDivisionError`, which propagates to the caller as a
thrown exception rather than producing an infinite value. -/
theorem C1_div_by_zero_raises (a : ℚ) :
    evaluate [Token.num a, Token.op '/', Token.num 0] 0 = .error PyErr.zeroDivision := by
  have h2 : evaluate_expr
      (([Token.num a, Token.op '/', Token.num 0].drop
        (findHit [Token.num a, Token.op '/', Token.num 0] (op_order.get ⟨2, by decide⟩) -
          1)).take 3) = .error PyErr.zeroDivision := by
    show evaluate_expr [Token.num a, Token.op '/', Token.num 0] = _
    rw [evaluate_expr_div]
    unfold pyDiv
    rw [if_pos rfl]
  show evaluateF (27 + 1) [Token.num a, Token.op '/', Token.num 0] 0 = _
  rw [evaluateF_advance 27 [Token.num a, Token.op '/', Token.num 0] 0 (by decide) (show (3:ℕ) ≠ 1 by decide)
    (show (3:ℕ) ≠ 0 by decide) (by rfl)]
  show evaluateF (26 + 1) [Token.num a, Token.op '/', Token.num 0] 1 = _
  rw [evaluateF_advance 26 [Token.num a, Token.op '/', Token.num 0] 1 (by decide) (show (3:ℕ) ≠ 1 by decide)
    (show (3:ℕ) ≠ 0 by decide) (by rfl)]
  show evaluateF (25 + 1) [Token.num a, Token.op '/', Token.num 0] 2 = _
  exact evaluateF_reduce_error 25 [Token.num a, Token.op '/', Token.num 0] 2 (by decide) (show (3:ℕ) ≠ 1 by decide)
    (show (3:ℕ) ≠ 0 by decide) (show (1:ℕ) ≠ 0 by decide) PyErr.zeroDivision h2

/-- C2 counterexample: the claim fails on `"6 / 2 * 3"` — the code evaluates
it to `1` (all `*` windows are reduced before any `/`), while the tier-based
leftmost-first scan described by the spec yields `9`; the two disagree. -/
theorem C2_counterexample :
    calcLang "6 / 2 * 3" =
      .ok [Token.num 6, Token.op '/', Token.num 2, Token.op '*', Token.num 3] ∧
    evaluate [Token.num 6, Token.op '/', Token.num 2, Token.op '*', Token.num 3] 0 =
      .ok (Token.num 1) ∧
    specReduce [Token.num 6, Token.op '/', Token.num 2, Token.op '*', Token.num 3] =
      .ok (Token.num 9) ∧
    (1 : ℚ) ≠ 9 := by
  refine ⟨by decide, by decide, by decide, by decide⟩

/-- C2 (amended): the scan distinguishes the two operators of a tier and
handles one symbol of `op_order` at a time, so all `*` reduce before any `/`
and all `+` before any `-`; only same-symbol runs are left-to-right.  Hence
`"6 / 2 * 3"` evaluates to `1` (not `9`), `"1 + 2 - 3 + 4"` to `-4` (not `4`),
while the same-symbol chains `"20 / 2 / 5"` and `"10 - 2 - 3"` are still
reduced leftmost-first. -/
theorem C2_per_symbol_scan :
    evalString "6 / 2 * 3" = .ok (Token.num 1) ∧
    evalString "1 + 2 - 3 + 4" = .ok (Token.num (-4)) ∧
    evalString "20 / 2 / 5" = .ok (Token.num 2) ∧
    evalString "10 - 2 - 3" = .ok (Token.num 5) := by
  refine ⟨by decide, by decide, by decide, by decide⟩

/-- C3 counterexample: the claim fails on `"2 +"` — `parseString` is called
without `parseAll`, so the dangling operator is silently dropped and
tokenization succeeds with `[2.0]` instead of raising `ParseError`. -/
theorem C3_counterexample :
    calcLang "2 +" = .ok [Token.num 2] ∧
    calcLang "2 +" ≠ .error PyErr.parseException := by
  refine ⟨by decide, by decide⟩

/-- C3 (amended): of the spec's five rejection examples only the empty input
raises `ParseException`; a trailing operator (`"2 +"`) and unmatchable
trailing text (`"2 . . 3"`) are silently ignored and tokenization succeeds on
the longest valid prefix; a bare sign where a number is expected (`"+ 2"`,
`"2 + + 3"`) makes the `float()` parse action raise `ValueError`, which the
driver's `except ParseException` does not catch. -/
theorem C3_malformed_input_behavior :
    calcLang "" = .error PyErr.parseException ∧
    calcLang "2 +" = .ok [Token.num 2] ∧
    calcLang "2 . . 3" = .ok [Token.num 2] ∧
    calcLang "+ 2" = .error PyErr.valueError ∧
    calcLang "2 + + 3" = .error PyErr.valueError ∧
    loopLine "+ 2" = .error PyErr.valueError := by
  refine ⟨by decide, by decide, by decide, by decide, by decide, by decide⟩

/-- C4 counterexample: reduce is not total on valid TokenSequences — the
valid sequence `[5, /, 0]` makes `evaluate` raise `ZeroDivisionError`. -/
theorem C4_counterexample :
    Valid [Token.num 5, Token.op '/', Token.num 0] ∧
    evaluate [Token.num 5, Token.op '/', Token.num 0] 0 = .error PyErr.zeroDivision :=
  ⟨Valid.cons 5 '/' [Token.num 0] (by decide) (Valid.single 0), by decide⟩

/-- C5: exponentiation is reduced leftmost-first, hence left-associatively:
any window chain `a ^ b ^ c` (integral non-negative exponents) evaluates to
`(a ^ b) ^ c`, and `"2 ^ 3 ^ 2"` evaluates to `64`, not the conventional
right-associative `512`. -/
theorem C5_pow_left_assoc :
    (∀ (a b c : ℚ), b.den = 1 → 0 ≤ b.num → c.den = 1 → 0 ≤ c.num →
      evaluate [Token.num a, Token.op '^', Token.num b, Token.op '^', Token.num c] 0 =
        .ok (Token.num ((a ^ b.num) ^ c.num))) ∧
    evalString "2 ^ 3 ^ 2" = .ok (Token.num 64) := by
  constructor
  · intro a b c hb hb0 hc hc0
    have hq1 : evaluate_expr
        (([Token.num a, Token.op '^', Token.num b, Token.op '^', Token.num c].drop
          (findHit [Token.num a, Token.op '^', Token.num b, Token.op '^', Token.num c]
            (op_order.get ⟨0, by decide⟩) - 1)).take 3) =
        .ok (some [Token.num (a ^ b.num)]) := by
      show evaluate_expr [Token.num a, Token.op '^', Token.num b] = _
      rw [evaluate_expr_pow]
      unfold pyPow
      rw [if_pos hb, if_neg (by rintro ⟨-, hlt⟩; omega)]
    show evaluateF (41 + 1)
      [Token.num a, Token.op '^', Token.num b, Token.op '^', Token.num c] 0 = _
    rw [evaluateF_reduce 41 [Token.num a, Token.op '^', Token.num b, Token.op '^', Token.num c] 0 (by decide) (show (5:ℕ) ≠ 1 by decide)
      (show (5:ℕ) ≠ 0 by decide) (show (1:ℕ) ≠ 0 by decide) (a ^ b.num) hq1]
    have hq2 : evaluate_expr
        (([Token.num (a ^ b.num), Token.op '^', Token.num c].drop
          (findHit [Token.num (a ^ b.num), Token.op '^', Token.num c]
            (op_order.get ⟨0, by decide⟩) - 1)).take 3) =
        .ok (some [Token.num ((a ^ b.num) ^ c.num)]) := by
      show evaluate_expr [Token.num (a ^ b.num), Token.op '^', Token.num c] = _
      rw [evaluate_expr_pow]
      unfold pyPow
      rw [if_pos hc, if_neg (by rintro ⟨-, hlt⟩; omega)]
    show evaluateF (40 + 1) [Token.num (a ^ b.num), Token.op '^', Token.num c] 0 = _
    rw [evaluateF_reduce 40 [Token.num (a ^ b.num), Token.op '^', Token.num c] 0 (by decide) (show (3:ℕ) ≠ 1 by decide)
      (show (3:ℕ) ≠ 0 by decide) (show (1:ℕ) ≠ 0 by decide) ((a ^ b.num) ^ c.num) hq2]
    show evaluateF (39 + 1) [Token.num ((a ^ b.num) ^ c.num)] 0 = _
    rw [evaluateF_single 39]
  · decide

/-- C5 witness: the general left-associative-power theorem applied at the
concrete window chain `2 ^ 3 ^ 2`, whose value is `64`. -/
theorem C5_pow_left_assoc_witness :
    evaluate [Token.num 2, Token.op '^', Token.num 3, Token.op '^', Token.num 2] 0 =
      .ok (Token.num (((2 : ℚ) ^ ((3 : ℚ)).num) ^ ((2 : ℚ)).num)) ∧
    (((2 : ℚ) ^ ((3 : ℚ)).num) ^ ((2 : ℚ)).num) = 64 :=
  ⟨C5_pow_left_assoc.1 2 3 2 (by decide) (by decide) (by decide) (by decide), by decide⟩

/-- C6: the five precedence and associativity examples of the spec hold on
the code: `"2 + 3 * 4"` gives `14`, `"2 * 3 + 4"` gives `10`, `"10 - 2 - 3"`
gives `5`, `"20 / 2 / 5"` gives `2`, and `"1 + 2 * 3 - 4 / 2"` gives `5`. -/
theorem C6_precedence_examples :
    evalString "2 + 3 * 4" = .ok (Token.num 14) ∧
    evalString "2 * 3 + 4" = .ok (Token.num 10) ∧
    evalString "10 - 2 - 3" = .ok (Token.num 5) ∧
    evalString "20 / 2 / 5" = .ok (Token.num 2) ∧
    evalString "1 + 2 * 3 - 4 / 2" = .ok (Token.num 5) := by
  refine ⟨by decide, by decide, by decide, by decide, by decide⟩

/-- C8: evaluation of `"2 * 3"` succeeds with the float `6.0`, but the driver
then calls `.rstrip` on that float, so instead of printing the trimmed string
`"6"` it raises `AttributeError` — same for direct input `"6.0"`.  The
trimming intent is unambiguous in the source (`.rstrip('0').rstrip('.')`);
applying it to the float returned by `evaluate` is the slip. -/
theorem C8_display_attribute_error :
    evaluate [Token.num 2, Token.op '*', Token.num 3] 0 = .ok (Token.num 6) ∧
    loopLine "2 * 3" = .error PyErr.attributeError ∧
    loopLine "6.0" = .error PyErr.attributeError := by
  refine ⟨by decide, by decide, by decide⟩

/-- C10 counterexample: the claim fails at the window `[1.0, /, 0.0]` — the
`/` branch is taken but `evaluate_expr` raises `ZeroDivisionError` instead of
returning a one-element list. -/
theorem C10_counterexample :
    evaluate_expr [Token.num 1, Token.op '/', Token.num 0] = .error PyErr.zeroDivision := by
  decide


/-- C4 (amended): `evaluate` on every valid TokenSequence terminates without
`IndexError` — `op_index` never runs past `op_order` — and yields either a
single Number or an arithmetic error raised by `evaluate_expr` (such as
`ZeroDivisionError` on division by zero); it is total in every respect except
those arithmetic exceptions. -/
theorem C4_reduce_terminates (ts : List Token) (h : Valid ts) :
    (∃ q, evaluate ts 0 = .ok (Token.num q)) ∨
    (∃ e, ArithErr e ∧ evaluate ts 0 = .error e) := by
  unfold evaluate
  exact evaluateF_valid (ts.length * 7 + 7) ts 0 h (Nat.zero_le _) (noEarlier_zero ts)
    (by omega)

/-- C4 witness: the termination theorem applied to the valid sequence
`[2, +, 3]`. -/
theorem C4_reduce_terminates_witness :
    (∃ q, evaluate [Token.num 2, Token.op '+', Token.num 3] 0 = .ok (Token.num q)) ∨
    (∃ e, ArithErr e ∧
      evaluate [Token.num 2, Token.op '+', Token.num 3] 0 = .error e) :=
  C4_reduce_terminates _ (Valid.cons 2 '+' [Token.num 3] (by decide) (Valid.single 3))

/-- C7: tokenization always produces a sequence satisfying the alternating
Number/Operator invariant, and every reduction step — at the first scan hit
`i ≠ 0` — sees a three-element window `[Number, Operator, Number]` at
`[i-1, i, i+1]` and, replacing it by any single Number, preserves the
invariant while shrinking the sequence by exactly two elements. -/
theorem C7_window_invariant :
    (∀ (s : String) (ts : List Token), calcLang s = .ok ts → Valid ts) ∧
    (∀ (ts : List Token) (c : Char) (i : ℕ), Valid ts → scanHit ts c = some i →
      i ≠ 0 →
      (∃ a b, (ts.drop (i - 1)).take 3 = [Token.num a, Token.op c, Token.num b]) ∧
      ∀ q : ℚ, Valid (ts.take (i - 1) ++ [Token.num q] ++ ts.drop (i + 2)) ∧
        (ts.take (i - 1) ++ [Token.num q] ++ ts.drop (i + 2)).length =
          ts.length - 2) :=
  ⟨fun _ _ h => calcLang_valid h, fun _ _ _ hv hs hi => valid_hit_decomp hv hs hi⟩

/-- C7 witness: the invariant theorem applied to the parse of `"7"` and to
the reduction step of `[2, +, 3]` at hit index 1 with result 5. -/
theorem C7_window_invariant_witness :
    Valid [Token.num 7] ∧
    (Valid ([Token.num 2, Token.op '+', Token.num 3].take 0 ++ [Token.num 5] ++
        [Token.num 2, Token.op '+', Token.num 3].drop 3) ∧
      ([Token.num 2, Token.op '+', Token.num 3].take 0 ++ [Token.num 5] ++
        [Token.num 2, Token.op '+', Token.num 3].drop 3).length =
        [Token.num 2, Token.op '+', Token.num 3].length - 2) :=
  ⟨C7_window_invariant.1 "7" [Token.num 7] (by decide),
   (C7_window_invariant.2 [Token.num 2, Token.op '+', Token.num 3] '+' 1
      (Valid.cons 2 '+' [Token.num 3] (by decide) (Valid.single 3))
      (by decide) (by decide)).2 5⟩

/-- C9: in every valid TokenSequence the element at index 0 is a Number, so
the Python scan's `hitIndex == 0` sentinel is sound: it reads `0` exactly
when no token of the sequence matches the scanned operator, which is exactly
when `evaluate` advances to the next `op_index`. -/
theorem C9_sentinel_sound (ts : List Token) (c : Char) (h : Valid ts) :
    (∃ q tl, ts = Token.num q :: tl) ∧
    (findHit ts c = 0 ↔ ∀ t ∈ ts, tokenMatches t c = false) := by
  refine ⟨valid_head h, ?_, ?_⟩
  · intro h0
    have hnone : scanHit ts c = none := by
      cases hs : scanHit ts c with
      | none => rfl
      | some i =>
        have hi0 : i = 0 := by
          unfold findHit at h0
          rw [hs] at h0
          simpa using h0
        exact absurd (hi0 ▸ hs) (scanHit_valid_ne_zero h)
    exact scanHit_eq_none_iff.mp hnone
  · intro hall
    unfold findHit
    rw [scanHit_eq_none_iff.mpr hall]
    rfl

/-- C9 witness: the sentinel theorem applied to the valid sequence
`[1, *, 2]` scanned for `^`. -/
theorem C9_sentinel_sound_witness :
    (∃ q tl, ([Token.num 1, Token.op '*', Token.num 2] : List Token) =
      Token.num q :: tl) ∧
    (findHit [Token.num 1, Token.op '*', Token.num 2] '^' = 0 ↔
      ∀ t ∈ [Token.num 1, Token.op '*', Token.num 2], tokenMatches t '^' = false) :=
  C9_sentinel_sound _ '^' (Valid.cons 1 '*' [Token.num 2] (by decide) (Valid.single 2))

/-- C10 (amended): on a window whose middle element is one of the five
operators, `evaluate_expr` takes exactly one branch and returns the
one-element list with the numeric result unless the arithmetic operation
itself raises (division by zero, or zero to a negative power); on any other
middle element it falls through every branch and returns `None`. -/
theorem C10_evaluate_expr_dispatch :
    (∀ (a b : ℚ) (c : Char), c ∈ op_order →
      (∃ q, evaluate_expr [Token.num a, Token.op c, Token.num b] =
        .ok (some [Token.num q])) ∨
      (∃ e, ArithErr e ∧
        evaluate_expr [Token.num a, Token.op c, Token.num b] = .error e)) ∧
    (∀ t0 t1 t2 : Token, (∀ c ∈ op_order, tokenMatches t1 c = false) →
      evaluate_expr [t0, t1, t2] = .ok none) := by
  constructor
  · intro a b c hc
    exact evaluate_expr_window hc a b []
  · intro t0 t1 t2 hall
    have h1 := hall '^' (by decide)
    have h2 := hall '*' (by decide)
    have h3 := hall '/' (by decide)
    have h4 := hall '+' (by decide)
    have h5 := hall '-' (by decide)
    unfold evaluate_expr
    simp [h1, h2, h3, h4, h5]

/-- C10 witness: dispatch at the `+` window `[1, +, 2]` and fall-through at
the operator-free triple `[1, 2, 3]`. -/
theorem C10_evaluate_expr_dispatch_witness :
    ((∃ q, evaluate_expr [Token.num 1, Token.op '+', Token.num 2] =
        .ok (some [Token.num q])) ∨
      (∃ e, ArithErr e ∧
        evaluate_expr [Token.num 1, Token.op '+', Token.num 2] = .error e)) ∧
    evaluate_expr [Token.num 1, Token.num 2, Token.num 3] = .ok none :=
  ⟨C10_evaluate_expr_dispatch.1 1 2 '+' (by decide),
   C10_evaluate_expr_dispatch.2 (Token.num 1) (Token.num 2) (Token.num 3) (by decide)⟩

end ConcreteEvaluations
